import Mathlib

/-!
Shallow embedding of the sql-fs filesystem engine (sqlfs/fs.go plus the
schema in schema.sql) and proofs about its operations.

The backing store is modelled as an explicit record `DB` holding the three
relations of the schema — `tree(inode, parent, name)` with a UNIQUE
constraint on `(name, parent)`, `inodes(inode PRIMARY KEY, struct_data)`,
and `data_blocks(inode, sequence, data)` with PRIMARY KEY
`(inode, sequence)` — together with the `inode_seq` sequence.

Transactions are modelled by the return type `Except`: a function that
runs a transaction returns `.ok s'` for the committed state, and
`.error e` when a statement fails, in which case the transaction is
rolled back and the caller keeps the pre-state.  A transaction that the
source neither commits nor rolls back (the hard-link branch of
`RemoveNodeByName`) never publishes its writes, so it is modelled as
returning the unchanged pre-state.
-/

namespace SqlFs

/-- Byte content is opaque to the engine; bytes are modelled as `Nat`. -/
abbrev Byte := Nat

/-- Chunk size for data blocks, fs.go (`BLOCK_SIZE = 1024`). -/
def BLOCK_SIZE : Nat := 1024

/-- Reserved root inode (`rootInode = 1`), fs.go. -/
def rootInode : Nat := 1

/-- One row of the `tree` relation: a (parent, name) edge to an inode. -/
structure TreeRow where
  inode : Nat
  parent : Nat
  name : String
deriving DecidableEq

/-- The persisted part of `fileNode` (fs.go).  The Go struct is stored as
a JSON blob in `inodes.struct_data`; the `Inode` and `Name` fields carry
the tag that excludes them from the JSON, so they are not part of this
record (the inode lives in the row key, the name in `tree`).  Timestamps
are abstract `Nat` instants. -/
structure FileNode where
  size : Nat
  atime : Nat
  mtime : Nat
  ctime : Nat
  crtime : Nat
  mode : Nat
  nlink : Nat
  uid : Nat
  gid : Nat
  rdev : Nat
  flags : Nat
  symlinkTarget : String
deriving DecidableEq

/-- A fresh in-memory node as built by `Create`/`Mkdir`/`Mknod` in fs.go:
zero values everywhere except the mode and link count. -/
def freshNode (mode nlink : Nat) : FileNode :=
  { size := 0, atime := 0, mtime := 0, ctime := 0, crtime := 0,
    mode := mode, nlink := nlink, uid := 0, gid := 0, rdev := 0,
    flags := 0, symlinkTarget := "" }

/-- Bit used by `os.ModeDir` (bit 31 of Go's `os.FileMode`). -/
def ModeDir : Nat := 2 ^ 31

/-- `fileNode.IsDirectory` (fs.go): the mode has the directory bit set. -/
def isDirMode (m : Nat) : Bool := m.land ModeDir != 0

/-- The database state: the three relations of schema.sql plus the
`inode_seq` sequence generator (`nextInode`). -/
structure DB where
  tree : List TreeRow
  inodes : List (Nat × FileNode)
  data_blocks : List (Nat × Nat × List Byte)
  nextInode : Nat
deriving DecidableEq

/-- Errors surfaced by the store layer. `execFailure` stands for an
injected statement failure (any store/transaction error). -/
inductive DBError where
  | uniqueViolation
  | noRows
  | execFailure
deriving DecidableEq

/-- FUSE-facing error codes actually produced by fs.go. `eexist` is in
the taxonomy (`EEXIST` in the fs.go comment block) but is shown below to
never be produced. -/
inductive Errno where
  | ioError
  | enoent
  | enotempty
  | eexist
deriving DecidableEq

/-- The WHERE clause `parent = $1 AND name = $2` used on `tree`. -/
def treeMatch (parent : Nat) (name : String) (r : TreeRow) : Bool :=
  r.parent == parent && r.name == name

/-- `SELECT ... FROM tree WHERE parent = $1 AND name = $2 LIMIT 1`. -/
def findTreeRow (s : DB) (parent : Nat) (name : String) : Option TreeRow :=
  s.tree.find? (treeMatch parent name)

/-- `SELECT struct_data FROM inodes WHERE inode = $1` (primary-key read). -/
def getInodeRow (s : DB) (inode : Nat) : Option FileNode :=
  (s.inodes.find? (fun p => p.1 == inode)).map (fun p => p.2)

/-- `UPSERT INTO inodes(inode, struct_data)`: the conflict target is the
primary key `inode`, so an existing row is replaced in place and a
missing row is inserted. -/
def upsertInodeRow (s : DB) (inode : Nat) (n : FileNode) : DB :=
  if s.inodes.any (fun p => p.1 == inode) then
    { s with inodes := s.inodes.map (fun p => if p.1 == inode then (inode, n) else p) }
  else
    { s with inodes := s.inodes ++ [(inode, n)] }

/-- `GetNodeByID` (fs.go): primary-key lookup in `inodes`;
`sql.ErrNoRows` when absent. -/
def GetNodeByID (s : DB) (inode : Nat) : Except DBError FileNode :=
  match getInodeRow s inode with
  | none => .error .noRows
  | some n => .ok n

/-- `GetNodeByName` (fs.go): resolve `(parent, name)` through `tree`,
then load the node row.  Returns the resolved inode and its node. -/
def GetNodeByName (s : DB) (parent : Nat) (name : String) :
    Except DBError (Nat × FileNode) :=
  match findTreeRow s parent name with
  | none => .error .noRows
  | some r =>
    match GetNodeByID s r.inode with
    | .error e => .error e
    | .ok n => .ok (r.inode, n)

/-- `CountNodesInDir` (fs.go): `SELECT COUNT(*) FROM tree WHERE parent = $1`. -/
def CountNodesInDir (s : DB) (inode : Nat) : Nat :=
  (s.tree.filter (fun r => r.parent == inode)).length

/-- `UpsertNode` (fs.go): one transaction that inserts a `tree` row with a
fresh inode from `inode_seq` and writes the node blob.  The statement
`UPSERT INTO tree(parent, name) ... RETURNING inode` conflicts only on the
hidden rowid primary key, so it behaves as a plain INSERT; a pre-existing
`(parent, name)` pair violates the `UNIQUE (name, parent)` constraint and
fails the statement, rolling the transaction back. -/
def UpsertNode (s : DB) (now : Nat) (parent : Nat) (name : String) (n : FileNode) :
    Except DBError (DB × Nat) :=
  let n' := { n with mtime := now, ctime := now }
  if s.tree.any (treeMatch parent name) then
    .error .uniqueViolation
  else
    let lastId := s.nextInode
    let s1 := { s with tree := s.tree ++ [⟨lastId, parent, name⟩],
                       nextInode := s.nextInode + 1 }
    .ok (upsertInodeRow s1 lastId n', lastId)

/-- `CreateLink` (fs.go): one transaction that inserts a `tree` row for an
existing inode and rewrites the node blob with `Nlink` incremented.  As in
`UpsertNode`, the tree UPSERT acts as an INSERT and fails on a duplicate
`(parent, name)`.  The `GetNodeByID` read goes through `db`, i.e. it reads
the committed pre-state, exactly as the source does. -/
def CreateLink (s : DB) (parent : Nat) (inode : Nat) (name : String) :
    Except DBError DB :=
  if s.tree.any (treeMatch parent name) then
    .error .uniqueViolation
  else
    let s1 := { s with tree := s.tree ++ [⟨inode, parent, name⟩] }
    match GetNodeByID s inode with
    | .error e => .error e
    | .ok toUpdate =>
      .ok (upsertInodeRow s1 inode { toUpdate with nlink := toUpdate.nlink + 1 })

/-- `RenameNode` (fs.go): a single
`UPDATE tree SET name = $1, parent = $2 WHERE name = $3 AND parent = $4`.
No existence check is made (zero matched rows is a success).  If some row
other than the matched one already holds `(newParent, newName)`, the
update violates the `UNIQUE (name, parent)` constraint of schema.sql and
the statement fails.  (Well-formed states have at most one row per
`(parent, name)` key.) -/
def RenameNode (s : DB) (oldParent : Nat) (oldName : String)
    (newParent : Nat) (newName : String) : Except DBError DB :=
  if s.tree.any (treeMatch oldParent oldName)
      && s.tree.any (fun r => !(treeMatch oldParent oldName r)
                              && treeMatch newParent newName r) then
    .error .uniqueViolation
  else
    .ok { s with tree := s.tree.map (fun r =>
      if treeMatch oldParent oldName r then
        { r with parent := newParent, name := newName }
      else r) }

/-- `RemoveNodeByName` (fs.go): a transaction that deletes the
`(parent, name)` row from `tree` and then counts remaining references to
`inode`.  When references remain the source returns `nil` WITHOUT calling
`tx.Commit()` (fs.go, the `count > 0` branch), so the pending DELETE is
never published: the observable result is success with the state
unchanged.  When no reference remains, the node row and all data blocks
of the inode are deleted and the transaction commits. -/
def RemoveNodeByName (s : DB) (parent : Nat) (name : String) (inode : Nat) :
    Except DBError DB :=
  let s1 := { s with tree := s.tree.filter (fun r => !(treeMatch parent name r)) }
  if (s1.tree.filter (fun r => r.inode == inode)).length > 0 then
    .ok s
  else
    .ok { s1 with
      inodes := s1.inodes.filter (fun p => !(p.1 == inode)),
      data_blocks := s1.data_blocks.filter (fun b => !(b.1 == inode)) }

/-- The chunking performed by the loop in `WriteData` (fs.go): while more
than `BLOCK_SIZE` bytes remain, emit a full block; a final short (or
exactly full) remainder is emitted whole; nothing is emitted for empty
input. -/
def chunkData (input : List Byte) : List (List Byte) :=
  if _h0 : input.length = 0 then []
  else if _h1 : input.length > BLOCK_SIZE then
    input.take BLOCK_SIZE :: chunkData (input.drop BLOCK_SIZE)
  else [input]
termination_by input.length
decreasing_by
  simp only [List.length_drop, BLOCK_SIZE] at *
  omega

/-- Rows `(inode, sequence, chunk)` for a list of chunks numbered
consecutively starting at `seq`, as inserted by the `WriteData` loop. -/
def chunkRows (inode seq : Nat) : List (List Byte) → List (Nat × Nat × List Byte)
  | [] => []
  | c :: rest => (inode, seq, c) :: chunkRows inode (seq + 1) rest

/-- The insert loop of `WriteData` (fs.go) with statement-failure
injection: `failAt = some j` makes the `j`-th statement of the
transaction return an error (statement `0` is the initial DELETE, so the
loop starts at statement index `stmt = 1`).  On success it returns the
inserted rows and the index of the next statement. -/
def writeBlocksLoop (inode : Nat) (input : List Byte) (seq stmt : Nat)
    (failAt : Option Nat) :
    Except DBError (List (Nat × Nat × List Byte) × Nat) :=
  if _h0 : input.length = 0 then .ok ([], stmt)
  else if _h1 : input.length > BLOCK_SIZE then
    if failAt == some stmt then .error .execFailure
    else
      match writeBlocksLoop inode (input.drop BLOCK_SIZE) (seq + 1) (stmt + 1) failAt with
      | .error e => .error e
      | .ok (rest, stmt') => .ok ((inode, seq, input.take BLOCK_SIZE) :: rest, stmt')
  else
    if failAt == some stmt then .error .execFailure
    else .ok ([(inode, seq, input)], stmt + 1)
termination_by input.length
decreasing_by
  simp only [List.length_drop, BLOCK_SIZE] at *
  omega

/-- `WriteData` (fs.go): one transaction that deletes every data block of
the inode, re-inserts the content in `BLOCK_SIZE` chunks numbered from 1,
and rewrites the node blob with `Size` set to the content length.
`failAt` injects a failure into the numbered statements (0 the DELETE,
1.. the chunk INSERTs, last the node UPSERT); any failure rolls the whole
transaction back, i.e. returns `.error` and the caller keeps the
pre-state. -/
def WriteData (s : DB) (n : FileNode) (inode : Nat) (data : List Byte)
    (failAt : Option Nat) : Except DBError DB :=
  if failAt == some 0 then .error .execFailure
  else
    let s1 := { s with data_blocks := s.data_blocks.filter (fun b => !(b.1 == inode)) }
    match writeBlocksLoop inode data 1 1 failAt with
    | .error e => .error e
    | .ok (newBlocks, stmt) =>
      if failAt == some stmt then .error .execFailure
      else
        .ok (upsertInodeRow { s1 with data_blocks := s1.data_blocks ++ newBlocks }
          inode { n with size := data.length })

/-- Insertion step for ordering blocks by their `sequence` column. -/
def insertBlock (b : Nat × Nat × List Byte) :
    List (Nat × Nat × List Byte) → List (Nat × Nat × List Byte)
  | [] => [b]
  | c :: rest => if b.2.1 ≤ c.2.1 then b :: c :: rest else c :: insertBlock b rest

/-- `ORDER BY sequence` over the selected block rows. -/
def sortBlocks : List (Nat × Nat × List Byte) → List (Nat × Nat × List Byte)
  | [] => []
  | b :: rest => insertBlock b (sortBlocks rest)

/-- `ReadData` (fs.go): `SELECT data FROM data_blocks WHERE inode = $1
ORDER BY sequence`, concatenating the rows.  (The `make([]byte,
BLOCK_SIZE)` buffer in the source is dead: `rows.Scan` into a `*[]byte`
replaces the slice with the stored bytes, so short final blocks are not
padded.)  An inode with no blocks yields the empty stream. -/
def ReadData (s : DB) (inode : Nat) : List Byte :=
  ((sortBlocks (s.data_blocks.filter (fun b => b.1 == inode))).map
    (fun b => b.2.2)).flatten

/-- `fileNode.Remove` (fs.go): resolve the name, and when the request is
a directory remove (`req.Dir`), fail with ENOTEMPTY if the target has any
child tree entry; otherwise delegate to `RemoveNodeByName`.  Store errors
map to the generic I/O error. -/
def Remove (s : DB) (parentInode : Nat) (name : String) (dir : Bool) :
    Except Errno DB :=
  match GetNodeByName s parentInode name with
  | .error _ => .error .ioError
  | .ok (toRemove, _) =>
    if dir && decide (CountNodesInDir s toRemove > 0) then
      .error .enotempty
    else
      match RemoveNodeByName s parentInode name toRemove with
      | .error _ => .error .ioError
      | .ok s1 => .ok s1

/-- `fileNode.Create` (fs.go): build a fresh regular node with link count
1 and insert it via `UpsertNode`; EVERY `UpsertNode` error — including a
`(parent, name)` uniqueness violation — is mapped to the generic I/O
error (`fuse.EIO`). -/
def Create (s : DB) (now : Nat) (parentInode : Nat) (name : String) (mode : Nat) :
    Except Errno (DB × Nat) :=
  match UpsertNode s now parentInode name (freshNode mode 1) with
  | .error _ => .error .ioError
  | .ok (s1, inode) => .ok (s1, inode)

/-- `fileNode.Link` (fs.go): rejects only when the RECEIVER (the parent
directory of the new entry) is not a directory; the type of the link
TARGET is never inspected.  Store errors map to the generic I/O error. -/
def Link (s : DB) (parentInode : Nat) (parentMode : Nat) (targetInode : Nat)
    (newName : String) : Except Errno DB :=
  if !isDirMode parentMode then .error .ioError
  else
    match CreateLink s parentInode targetInode newName with
    | .error _ => .error .ioError
    | .ok s1 => .ok s1

/-- `fileNode.Rename` (fs.go): delegate to `RenameNode`, mapping store
errors to the generic I/O error. -/
def Rename (s : DB) (oldParentInode : Nat) (oldName : String)
    (newParentInode : Nat) (newName : String) : Except Errno DB :=
  match RenameNode s oldParentInode oldName newParentInode newName with
  | .error _ => .error .ioError
  | .ok s1 => .ok s1

/-- `fileNode.Setattr` (fs.go): apply each requested field to the
in-memory node and rewrite the node blob via `UpdateNode`.  Data blocks
are never touched, even when the size field changes.  Returns the new
state and the updated in-memory node. -/
def Setattr (s : DB) (inode : Nat) (n : FileNode)
    (newMode newUid newGid newSize newAtime newMtime newCrtime : Option Nat) :
    DB × FileNode :=
  let n1 := match newMode with | some v => { n with mode := v } | none => n
  let n2 := match newUid with | some v => { n1 with uid := v } | none => n1
  let n3 := match newGid with | some v => { n2 with gid := v } | none => n2
  let n4 := match newSize with | some v => { n3 with size := v } | none => n3
  let n5 := match newAtime with | some v => { n4 with atime := v } | none => n4
  let n6 := match newMtime with | some v => { n5 with mtime := v } | none => n5
  let n7 := match newCrtime with | some v => { n6 with crtime := v } | none => n6
  (upsertInodeRow s inode n7, n7)

/-- The block/size invariant of the spec: the concatenation of an inode's
data blocks in sequence order has exactly the node's recorded size (so
reading the recorded number of bytes reproduces the whole stream). -/
def blockInv (s : DB) (inode : Nat) : Prop :=
  match getInodeRow s inode with
  | none => True
  | some nd => (ReadData s inode).length = nd.size

/-! ### Lemmas about the store primitives -/

theorem upsertInodeRow_tree (s : DB) (i : Nat) (n : FileNode) :
    (upsertInodeRow s i n).tree = s.tree := by
  unfold upsertInodeRow; split <;> rfl

theorem upsertInodeRow_data_blocks (s : DB) (i : Nat) (n : FileNode) :
    (upsertInodeRow s i n).data_blocks = s.data_blocks := by
  unfold upsertInodeRow; split <;> rfl

theorem upsertInodeRow_nextInode (s : DB) (i : Nat) (n : FileNode) :
    (upsertInodeRow s i n).nextInode = s.nextInode := by
  unfold upsertInodeRow; split <;> rfl

theorem find?_map_update (l : List (Nat × FileNode)) (i : Nat) (n : FileNode)
    (h : l.any (fun p => p.1 == i) = true) :
    (l.map (fun p => if p.1 == i then (i, n) else p)).find? (fun p => p.1 == i) =
      some (i, n) := by
  induction l with
  | nil => simp at h
  | cons p rest ih =>
    rw [List.map_cons]
    by_cases hp : p.1 = i
    · rw [if_pos (by simp [hp])]
      exact List.find?_cons_of_pos _ (by simp)
    · rw [if_neg (by simp [hp])]
      rw [List.find?_cons_of_neg _ (by simp [hp])]
      apply ih
      simp only [List.any_cons] at h
      simpa [hp] using h

theorem find?_map_update_ne (l : List (Nat × FileNode)) (i j : Nat) (n : FileNode)
    (h : j ≠ i) :
    (l.map (fun p => if p.1 == i then (i, n) else p)).find? (fun p => p.1 == j) =
      l.find? (fun p => p.1 == j) := by
  induction l with
  | nil => rfl
  | cons p rest ih =>
    rw [List.map_cons]
    by_cases hp : p.1 = i
    · rw [if_pos (by simp [hp])]
      rw [List.find?_cons_of_neg _ (by simp; omega),
          List.find?_cons_of_neg _ (by simp [hp]; omega), ih]
    · rw [if_neg (by simp [hp])]
      by_cases hq : p.1 = j
      · rw [List.find?_cons_of_pos _ (by simp [hq]),
            List.find?_cons_of_pos _ (by simp [hq])]
      · rw [List.find?_cons_of_neg _ (by simp [hq]),
            List.find?_cons_of_neg _ (by simp [hq]), ih]

theorem getInodeRow_upsert_self (s : DB) (i : Nat) (n : FileNode) :
    getInodeRow (upsertInodeRow s i n) i = some n := by
  unfold upsertInodeRow getInodeRow
  by_cases h : s.inodes.any (fun p => p.1 == i) = true
  · simp only [h, if_true]
    rw [find?_map_update s.inodes i n h]
    rfl
  · have h' : s.inodes.any (fun p => p.1 == i) = false := by
      revert h; cases s.inodes.any (fun p => p.1 == i) <;> simp
    simp only [h', Bool.false_eq_true, if_false]
    have hnone : s.inodes.find? (fun p => p.1 == i) = none := by
      rw [List.find?_eq_none]
      intro x hx
      have := (List.any_eq_false.mp h') x hx
      simpa using this
    rw [List.find?_append, hnone]
    simp [List.find?]

theorem getInodeRow_upsert_ne (s : DB) (i j : Nat) (n : FileNode) (h : j ≠ i) :
    getInodeRow (upsertInodeRow s i n) j = getInodeRow s j := by
  unfold upsertInodeRow getInodeRow
  by_cases hx : s.inodes.any (fun p => p.1 == i) = true
  · simp only [hx, if_true]
    rw [find?_map_update_ne s.inodes i j n h]
  · have h' : s.inodes.any (fun p => p.1 == i) = false := by
      revert hx; cases s.inodes.any (fun p => p.1 == i) <;> simp
    simp only [h', Bool.false_eq_true, if_false]
    rw [List.find?_append]
    have hij : (i == j) = false := by simp; omega
    cases hfind : s.inodes.find? (fun p => p.1 == j) <;> simp [List.find?, hij]

/-! ### Lemmas about chunking -/

theorem chunkData_flatten (input : List Byte) : (chunkData input).flatten = input := by
  induction input using chunkData.induct with
  | case1 input h0 =>
    rw [chunkData]
    simp [h0, List.length_eq_zero.mp h0]
  | case2 input h0 h1 ih =>
    rw [chunkData]
    simp [h0, h1, ih]
  | case3 input h0 h1 =>
    rw [chunkData]
    simp [h0, h1]

theorem chunkData_nil_iff (input : List Byte) :
    chunkData input = [] ↔ input = [] := by
  induction input using chunkData.induct with
  | case1 input h0 =>
    rw [chunkData]
    simp [h0, List.length_eq_zero.mp h0]
  | case2 input h0 h1 ih =>
    rw [chunkData]
    simp [h0, h1, List.length_eq_zero.not.mp h0]
  | case3 input h0 h1 =>
    rw [chunkData]
    simp [h0, h1, List.length_eq_zero.not.mp h0]

theorem chunkData_dropLast_full (input : List Byte) :
    ∀ c ∈ (chunkData input).dropLast, c.length = BLOCK_SIZE := by
  induction input using chunkData.induct with
  | case1 input h0 =>
    rw [chunkData]; simp [h0]
  | case2 input h0 h1 ih =>
    rw [chunkData, dif_neg h0, dif_pos h1]
    have hrest : chunkData (input.drop BLOCK_SIZE) ≠ [] := by
      intro hc
      have hdrop := (chunkData_nil_iff (input.drop BLOCK_SIZE)).mp hc
      have hlen := congrArg List.length hdrop
      simp [BLOCK_SIZE] at hlen h1
      omega
    rw [List.dropLast_cons_of_ne_nil hrest]
    intro c hc
    rcases List.mem_cons.mp hc with hhead | htail
    · subst hhead
      rw [List.length_take]
      omega
    · exact ih c htail
  | case3 input h0 h1 =>
    rw [chunkData]; simp [h0, h1]

theorem chunkData_le (input : List Byte) :
    ∀ c ∈ chunkData input, c.length ≤ BLOCK_SIZE := by
  induction input using chunkData.induct with
  | case1 input h0 =>
    rw [chunkData]; simp [h0]
  | case2 input h0 h1 ih =>
    rw [chunkData]
    simp only [h0, h1, dif_neg, dite_true, if_true]
    intro c hc
    rcases List.mem_cons.mp hc with hhead | htail
    · subst hhead
      rw [List.length_take]
      omega
    · exact ih c htail
  | case3 input h0 h1 =>
    rw [chunkData]
    simp only [h0, h1, dif_neg]
    intro c hc
    rcases List.mem_cons.mp hc with hhead | htail
    · subst hhead; omega
    · simp at htail

/-! ### Lemmas about numbered chunk rows -/

theorem chunkRows_fst (i seq : Nat) (cs : List (List Byte)) :
    ∀ r ∈ chunkRows i seq cs, r.1 = i := by
  induction cs generalizing seq with
  | nil => simp [chunkRows]
  | cons c rest ih =>
    intro r hr
    rcases List.mem_cons.mp hr with hhead | htail
    · subst hhead; rfl
    · exact ih (seq + 1) r htail

theorem chunkRows_seq_le (i seq : Nat) (cs : List (List Byte)) :
    ∀ r ∈ chunkRows i seq cs, seq ≤ r.2.1 := by
  induction cs generalizing seq with
  | nil => simp [chunkRows]
  | cons c rest ih =>
    intro r hr
    rcases List.mem_cons.mp hr with hhead | htail
    · subst hhead; exact le_refl _
    · exact Nat.le_of_succ_le (ih (seq + 1) r htail)

theorem chunkRows_pairwise (i seq : Nat) (cs : List (List Byte)) :
    (chunkRows i seq cs).Pairwise (fun a b => a.2.1 ≤ b.2.1) := by
  induction cs generalizing seq with
  | nil => simp [chunkRows]
  | cons c rest ih =>
    rw [chunkRows, List.pairwise_cons]
    constructor
    · intro b hb
      exact Nat.le_of_succ_le (chunkRows_seq_le i (seq + 1) rest b hb)
    · exact ih (seq + 1)

theorem chunkRows_map_data (i seq : Nat) (cs : List (List Byte)) :
    (chunkRows i seq cs).map (fun b => b.2.2) = cs := by
  induction cs generalizing seq with
  | nil => rfl
  | cons c rest ih =>
    rw [chunkRows, List.map_cons, ih (seq + 1)]

theorem chunkRows_filter_self (i seq : Nat) (cs : List (List Byte)) :
    (chunkRows i seq cs).filter (fun b => b.1 == i) = chunkRows i seq cs := by
  rw [List.filter_eq_self]
  intro b hb
  simp [chunkRows_fst i seq cs b hb]

theorem chunkRows_filter_ne (i j seq : Nat) (cs : List (List Byte)) (h : j ≠ i) :
    (chunkRows i seq cs).filter (fun b => b.1 == j) = [] := by
  rw [List.filter_eq_nil_iff]
  intro b hb
  simp [chunkRows_fst i seq cs b hb]
  omega

/-! ### Lemmas about the sequence sort -/

theorem insertBlock_le (b : Nat × Nat × List Byte)
    (l : List (Nat × Nat × List Byte)) (h : ∀ c ∈ l, b.2.1 ≤ c.2.1) :
    insertBlock b l = b :: l := by
  cases l with
  | nil => rfl
  | cons c rest =>
    rw [insertBlock, if_pos (h c (List.mem_cons_self c rest))]

theorem sortBlocks_sorted_id (l : List (Nat × Nat × List Byte))
    (h : l.Pairwise (fun a b => a.2.1 ≤ b.2.1)) : sortBlocks l = l := by
  induction l with
  | nil => rfl
  | cons b rest ih =>
    rcases List.pairwise_cons.mp h with ⟨hb, hrest⟩
    rw [sortBlocks, ih hrest, insertBlock_le b rest hb]

/-! ### Lemmas about the WriteData transaction -/

theorem writeBlocksLoop_ok (input : List Byte) :
    ∀ seq stmt inode : Nat, ∀ failAt : Option Nat,
      (∀ j, failAt = some j → j < stmt ∨ stmt + (chunkData input).length ≤ j) →
      writeBlocksLoop inode input seq stmt failAt =
        .ok (chunkRows inode seq (chunkData input),
             stmt + (chunkData input).length) := by
  induction input using chunkData.induct with
  | case1 input h0 =>
    intro seq stmt inode failAt hf
    rw [chunkData, dif_pos h0, writeBlocksLoop, dif_pos h0]
    simp [chunkRows]
  | case2 input h0 h1 ih =>
    intro seq stmt inode failAt hf
    have hchunk : chunkData input =
        input.take BLOCK_SIZE :: chunkData (input.drop BLOCK_SIZE) := by
      rw [chunkData, dif_neg h0, dif_pos h1]
    rw [hchunk] at hf ⊢
    rw [writeBlocksLoop, dif_neg h0, dif_pos h1]
    have hne : (failAt == some stmt) = false := by
      cases failAt with
      | none => rfl
      | some j =>
        have hj := hf j rfl
        simp only [List.length_cons] at hj
        simp
        omega
    rw [if_neg (by rw [hne]; exact Bool.false_ne_true)]
    rw [ih (seq + 1) (stmt + 1) inode failAt (by
      intro j hj
      rcases hf j hj with hlt | hge
      · exact Or.inl (Nat.lt_succ_of_lt hlt)
      · right
        simp [List.length_cons] at hge ⊢
        omega)]
    simp [chunkRows]
    omega
  | case3 input h0 h1 =>
    intro seq stmt inode failAt hf
    have hchunk : chunkData input = [input] := by
      rw [chunkData, dif_neg h0, dif_neg h1]
    rw [hchunk] at hf ⊢
    rw [writeBlocksLoop, dif_neg h0, dif_neg h1]
    have hne : (failAt == some stmt) = false := by
      cases failAt with
      | none => rfl
      | some j =>
        have hj := hf j rfl
        simp only [List.length_singleton] at hj
        simp
        omega
    rw [if_neg (by rw [hne]; exact Bool.false_ne_true)]
    simp [chunkRows]

theorem writeBlocksLoop_err (input : List Byte) :
    ∀ seq stmt j inode : Nat, stmt ≤ j → j < stmt + (chunkData input).length →
      writeBlocksLoop inode input seq stmt (some j) = .error .execFailure := by
  induction input using chunkData.induct with
  | case1 input h0 =>
    intro seq stmt j inode hlo hhi
    rw [chunkData, dif_pos h0] at hhi
    simp at hhi
    omega
  | case2 input h0 h1 ih =>
    intro seq stmt j inode hlo hhi
    have hchunk : chunkData input =
        input.take BLOCK_SIZE :: chunkData (input.drop BLOCK_SIZE) := by
      rw [chunkData, dif_neg h0, dif_pos h1]
    rw [hchunk, List.length_cons] at hhi
    rw [writeBlocksLoop, dif_neg h0, dif_pos h1]
    by_cases hj : j = stmt
    · rw [if_pos (by simp [hj])]
    · rw [if_neg (by simp; omega)]
      rw [ih (seq + 1) (stmt + 1) j inode (by omega) (by omega)]
  | case3 input h0 h1 =>
    intro seq stmt j inode hlo hhi
    have hchunk : chunkData input = [input] := by
      rw [chunkData, dif_neg h0, dif_neg h1]
    rw [hchunk] at hhi
    simp at hhi
    have hj : j = stmt := by omega
    rw [writeBlocksLoop, dif_neg h0, dif_neg h1, if_pos (by simp [hj])]

theorem writeData_none_eq (s : DB) (n : FileNode) (inode : Nat) (data : List Byte) :
    WriteData s n inode data none =
      .ok (upsertInodeRow
        { s with data_blocks :=
            s.data_blocks.filter (fun b => !(b.1 == inode))
              ++ chunkRows inode 1 (chunkData data) }
        inode { n with size := data.length }) := by
  rw [WriteData]
  rw [writeBlocksLoop_ok data 1 1 inode none (by intro j hj; cases hj)]
  rfl

theorem writeData_fail (s : DB) (n : FileNode) (inode : Nat) (data : List Byte)
    (j : Nat) (h : j < (chunkData data).length + 2) :
    WriteData s n inode data (some j) = .error .execFailure := by
  rw [WriteData]
  by_cases hj0 : j = 0
  · rw [if_pos (by simp [hj0])]
  · rw [if_neg (by simp; omega)]
    by_cases hjlast : j = 1 + (chunkData data).length
    · rw [writeBlocksLoop_ok data 1 1 inode (some j) (by
        intro j' hj'
        injection hj' with hh
        omega)]
      subst hjlast
      simp
    · rw [writeBlocksLoop_err data 1 1 j inode (by omega) (by omega)]

theorem filter_not_then_eq (l : List (Nat × Nat × List Byte)) (i : Nat) :
    (l.filter (fun b => !(b.1 == i))).filter (fun b => b.1 == i) = [] := by
  rw [List.filter_filter, List.filter_eq_nil_iff]
  intro b _hb
  simp

theorem filter_not_then_ne (l : List (Nat × Nat × List Byte)) (i j : Nat)
    (h : j ≠ i) :
    (l.filter (fun b => !(b.1 == i))).filter (fun b => b.1 == j) =
      l.filter (fun b => b.1 == j) := by
  rw [List.filter_filter]
  apply List.filter_congr
  intro b _hb
  by_cases hb1 : b.1 = j
  · simp [hb1]
    omega
  · simp [hb1]

theorem readData_after_write (s : DB) (n : FileNode) (inode : Nat)
    (data : List Byte) :
    ReadData (upsertInodeRow
      { s with data_blocks :=
          s.data_blocks.filter (fun b => !(b.1 == inode))
            ++ chunkRows inode 1 (chunkData data) }
      inode { n with size := data.length }) inode = data := by
  rw [ReadData, upsertInodeRow_data_blocks]
  show ((sortBlocks ((s.data_blocks.filter (fun b => !(b.1 == inode))
      ++ chunkRows inode 1 (chunkData data)).filter (fun b => b.1 == inode))).map
    (fun b => b.2.2)).flatten = data
  rw [List.filter_append, filter_not_then_eq, chunkRows_filter_self,
    List.nil_append, sortBlocks_sorted_id _ (chunkRows_pairwise inode 1 (chunkData data)),
    chunkRows_map_data, chunkData_flatten]

theorem readData_after_write_ne (s : DB) (n : FileNode) (inode j : Nat)
    (data : List Byte) (h : j ≠ inode) :
    ReadData (upsertInodeRow
      { s with data_blocks :=
          s.data_blocks.filter (fun b => !(b.1 == inode))
            ++ chunkRows inode 1 (chunkData data) }
      inode { n with size := data.length }) j = ReadData s j := by
  rw [ReadData, ReadData, upsertInodeRow_data_blocks]
  show ((sortBlocks ((s.data_blocks.filter (fun b => !(b.1 == inode))
      ++ chunkRows inode 1 (chunkData data)).filter (fun b => b.1 == j))).map
    (fun b => b.2.2)).flatten = _
  rw [List.filter_append, filter_not_then_ne _ _ _ h, chunkRows_filter_ne _ _ _ _ h,
    List.append_nil]

theorem map_id_of_fix (l : List TreeRow) (f : TreeRow → TreeRow)
    (h : ∀ r ∈ l, f r = r) : l.map f = l := by
  induction l with
  | nil => rfl
  | cons a rest ih =>
    rw [List.map_cons, h a (List.mem_cons_self a rest),
      ih (fun r hr => h r (List.mem_cons.mpr (Or.inr hr)))]

/-! ### Claim theorems -/

/-- C1: for every inode and every byte string `data`, `WriteData` followed
by `ReadData` returns exactly `data` (proved for all lengths, which covers
0 bytes, exactly one chunk, and one chunk plus one byte); and `ReadData`
of an inode with no data blocks returns the empty stream. -/
theorem c1_write_read_roundtrip :
    (∀ (s : DB) (n : FileNode) (inode : Nat) (data : List Byte),
      ∃ s', WriteData s n inode data none = .ok s' ∧ ReadData s' inode = data) ∧
    (∀ (s : DB) (inode : Nat),
      s.data_blocks.filter (fun b => b.1 == inode) = [] → ReadData s inode = []) := by
  constructor
  · intro s n inode data
    exact ⟨_, writeData_none_eq s n inode data, readData_after_write s n inode data⟩
  · intro s inode h
    rw [ReadData, h]
    rfl

/-- C1 witness: instance of the empty-stream part on a concrete state. -/
theorem c1_witness :
    ({ tree := [], inodes := [], data_blocks := [], nextInode := 2 } : DB).data_blocks.filter
      (fun b => b.1 == 5) = [] ∧
    ReadData { tree := [], inodes := [], data_blocks := [], nextInode := 2 } 5 = [] :=
  ⟨rfl, c1_write_read_roundtrip.2
    { tree := [], inodes := [], data_blocks := [], nextInode := 2 } 5 rfl⟩

/-- C2 failing input: inode 2 is hard-linked as entries (1,"a") and
(1,"b") with stored link count 2.  `Remove` of (1,"a") returns success,
but the transaction in `RemoveNodeByName` is never committed in the
hard-link branch, so the whole state — including the (1,"a") tree entry
and the link count 2 — is unchanged; in particular the stored link count
is not decremented. -/
def c2State : DB :=
  { tree := [⟨2, 1, "a"⟩, ⟨2, 1, "b"⟩], inodes := [(2, freshNode 0 2)],
    data_blocks := [(2, 1, [7])], nextInode := 3 }

/-- C2: evaluating the code at the failing input: removing one of two
hard links reports success with the state unchanged — the tree entry is
still present and the stored link count is still 2. -/
theorem c2_remove_hardlink_unpublished :
    Remove c2State 1 "a" false = .ok c2State ∧
    findTreeRow c2State 1 "a" = some ⟨2, 1, "a"⟩ ∧
    getInodeRow c2State 2 = some (freshNode 0 2) ∧
    (freshNode 0 2).nlink = 2 :=
  ⟨rfl, rfl, rfl, rfl⟩

/-- C3 counterexample state: inode 2 is a directory-type node. -/
def c3State : DB :=
  { tree := [], inodes := [(2, freshNode ModeDir 1)], data_blocks := [],
    nextInode := 3 }

/-- C3 counterexample result: the link to the directory is created and
its link count incremented. -/
def c3Linked : DB :=
  { tree := [⟨2, 1, "l"⟩], inodes := [(2, freshNode ModeDir 2)],
    data_blocks := [], nextInode := 3 }

/-- C3 counterexample: linking to a DIRECTORY-type inode is NOT rejected:
the operation succeeds and changes the state (inserts the entry and
increments the directory's link count), contradicting the claim that a
directory target is rejected with no change. -/
theorem c3_counterexample :
    isDirMode (freshNode ModeDir 1).mode = true ∧
    Link c3State 1 ModeDir 2 "l" = .ok c3Linked ∧
    c3Linked ≠ c3State := by
  refine ⟨rfl, rfl, ?_⟩
  intro h
  exact absurd (congrArg DB.tree h) (by simp [c3Linked, c3State])

/-- C3 (amended): for any target inode whose node row exists — of any
type, directories included — `CreateLink` into a free (parent, name) slot
inserts the tree entry and increments the stored link count by exactly
one, atomically (one committed result state), touching nothing else. -/
theorem c3_link_amended (s : DB) (parent targetInode : Nat) (name : String)
    (nd : FileNode)
    (h1 : s.tree.any (treeMatch parent name) = false)
    (h2 : getInodeRow s targetInode = some nd) :
    ∃ s', CreateLink s parent targetInode name = .ok s' ∧
      s'.tree = s.tree ++ [⟨targetInode, parent, name⟩] ∧
      getInodeRow s' targetInode = some { nd with nlink := nd.nlink + 1 } ∧
      s'.data_blocks = s.data_blocks ∧
      s'.nextInode = s.nextInode ∧
      (∀ j, j ≠ targetInode → getInodeRow s' j = getInodeRow s j) := by
  have heq : CreateLink s parent targetInode name =
      .ok (upsertInodeRow { s with tree := s.tree ++ [⟨targetInode, parent, name⟩] }
        targetInode { nd with nlink := nd.nlink + 1 }) := by
    simp only [CreateLink, h1, Bool.false_eq_true, if_false, GetNodeByID, h2]
  refine ⟨_, heq, ?_, getInodeRow_upsert_self _ _ _, ?_, ?_, ?_⟩
  · rw [upsertInodeRow_tree]
  · rw [upsertInodeRow_data_blocks]
  · rw [upsertInodeRow_nextInode]
  · intro j hj
    rw [getInodeRow_upsert_ne _ _ _ _ hj]
    rfl

/-- C3 witness state: a regular-file inode 7 to be hard-linked. -/
def c3WitState : DB :=
  { tree := [], inodes := [(7, freshNode 0 1)], data_blocks := [],
    nextInode := 8 }

/-- C3 witness: the amended theorem at a concrete input. -/
theorem c3_witness :
    ∃ s', CreateLink c3WitState 1 7 "w" = .ok s' ∧
      s'.tree = c3WitState.tree ++ [⟨7, 1, "w"⟩] ∧
      getInodeRow s' 7 = some { freshNode 0 1 with nlink := (freshNode 0 1).nlink + 1 } ∧
      s'.data_blocks = c3WitState.data_blocks ∧
      s'.nextInode = c3WitState.nextInode ∧
      (∀ j, j ≠ 7 → getInodeRow s' j = getInodeRow c3WitState j) :=
  c3_link_amended c3WitState 1 7 "w" (freshNode 0 1) rfl rfl

/-- C4 counterexample state: (1,"a") already exists. -/
def c4State : DB :=
  { tree := [⟨2, 1, "a"⟩], inodes := [(2, freshNode 0 1)], data_blocks := [],
    nextInode := 3 }

/-- C4 counterexample: inserting a duplicate name surfaces as the GENERIC
I/O error, not as the distinct AlreadyExists (`eexist`) code the claim
names. -/
theorem c4_counterexample :
    Create c4State 0 1 "a" 0 = .error .ioError ∧
    Errno.ioError ≠ Errno.eexist :=
  ⟨rfl, by decide⟩

/-- C4 (amended): an insert of a new object under an already-present
(parent, name) violates the uniqueness constraint — the store layer fails
with `uniqueViolation`, so nothing succeeds or overwrites — and `Create`
surfaces it as the generic I/O error (`fuse.EIO`), not as a distinct
AlreadyExists code. -/
theorem c4_duplicate_insert (s : DB) (now parent mode : Nat) (name : String)
    (h : s.tree.any (treeMatch parent name) = true) :
    UpsertNode s now parent name (freshNode mode 1) = .error .uniqueViolation ∧
    Create s now parent name mode = .error .ioError := by
  have hu : UpsertNode s now parent name (freshNode mode 1) = .error .uniqueViolation := by
    simp [UpsertNode, h]
  exact ⟨hu, by simp [Create, hu]⟩

/-- C4 witness: the amended theorem at a concrete input. -/
theorem c4_witness :
    UpsertNode c4State 0 1 "a" (freshNode 0 1) = .error .uniqueViolation ∧
    Create c4State 0 1 "a" 0 = .error .ioError :=
  c4_duplicate_insert c4State 0 1 0 "a" rfl

/-- C5: removing a directory that has at least one child tree entry fails
with ENOTEMPTY; only reads happen before the check, and the error return
publishes no transaction, so the tree and all other state are unchanged. -/
theorem c5_remove_nonempty_dir (s : DB) (parent : Nat) (name : String)
    (r : TreeRow) (d : FileNode)
    (h1 : findTreeRow s parent name = some r)
    (h2 : getInodeRow s r.inode = some d)
    (h3 : 0 < CountNodesInDir s r.inode) :
    Remove s parent name true = .error .enotempty := by
  simp only [Remove, GetNodeByName, h1, GetNodeByID, h2]
  simp [h3]

/-- C5 witness state: directory inode 2 with one child entry. -/
def c5State : DB :=
  { tree := [⟨2, 1, "d"⟩, ⟨3, 2, "x"⟩],
    inodes := [(2, freshNode ModeDir 2), (3, freshNode 0 1)],
    data_blocks := [], nextInode := 4 }

/-- C5 witness: the theorem at a concrete input. -/
theorem c5_witness : Remove c5State 1 "d" true = .error .enotempty :=
  c5_remove_nonempty_dir c5State 1 "d" ⟨2, 1, "d"⟩ (freshNode ModeDir 2)
    rfl rfl (by decide)

/-- C6: removing the single tree entry that references an inode deletes,
in one committed transaction, the tree entry, the inode's node row, and
all of the inode's data blocks. -/
theorem c6_remove_last_link (s : DB) (parent : Nat) (name : String) (inode : Nat)
    (h1 : s.tree.filter (fun r => r.inode == inode) = [⟨inode, parent, name⟩]) :
    RemoveNodeByName s parent name inode =
      .ok { tree := s.tree.filter (fun r => !(treeMatch parent name r)),
            inodes := s.inodes.filter (fun p => !(p.1 == inode)),
            data_blocks := s.data_blocks.filter (fun b => !(b.1 == inode)),
            nextInode := s.nextInode } := by
  have hcount : (s.tree.filter (fun r => !(treeMatch parent name r))).filter
      (fun r => r.inode == inode) = [] := by
    rw [List.filter_eq_nil_iff]
    intro r hr
    rw [List.mem_filter] at hr
    obtain ⟨hmem, hnm⟩ := hr
    by_cases hri : r.inode = inode
    · have hmem2 : r ∈ s.tree.filter (fun r => r.inode == inode) := by
        rw [List.mem_filter]
        exact ⟨hmem, by simp [hri]⟩
      rw [h1, List.mem_singleton] at hmem2
      subst hmem2
      simp [treeMatch] at hnm
    · simp [hri]
  simp [RemoveNodeByName, hcount]

/-- C6 witness state: inode 2 referenced only by (1,"f"), with two data
blocks. -/
def c6State : DB :=
  { tree := [⟨2, 1, "f"⟩], inodes := [(2, freshNode 0 1)],
    data_blocks := [(2, 1, [7]), (2, 2, [8])], nextInode := 3 }

/-- C6 witness: the theorem at a concrete input — the tree entry, node
row and both data blocks are gone. -/
theorem c6_witness :
    RemoveNodeByName c6State 1 "f" 2 =
      .ok { tree := [], inodes := [], data_blocks := [], nextInode := 3 } :=
  c6_remove_last_link c6State 1 "f" 2 rfl

/-- C7: a successful `WriteData` replaces the inode's block set with the
content chunked into `BLOCK_SIZE` pieces numbered consecutively from 1
(each chunk full except possibly the last, and their concatenation is the
content), sets the node's size field to the content length, and leaves
the tree, the sequence, and every other inode untouched — all as one
committed state; and a failure of ANY statement of the transaction (the
DELETE, any chunk INSERT, or the node UPSERT) makes the whole transaction
roll back with the error propagated (`.error`, caller keeps the
pre-state). -/
theorem c7_writedata_transaction (s : DB) (n : FileNode) (inode : Nat)
    (data : List Byte) :
    (∃ s', WriteData s n inode data none = .ok s' ∧
      s'.data_blocks = s.data_blocks.filter (fun b => !(b.1 == inode))
        ++ chunkRows inode 1 (chunkData data) ∧
      s'.tree = s.tree ∧
      s'.nextInode = s.nextInode ∧
      getInodeRow s' inode = some { n with size := data.length } ∧
      (∀ j, j ≠ inode → getInodeRow s' j = getInodeRow s j) ∧
      (chunkData data).flatten = data ∧
      (∀ c ∈ (chunkData data).dropLast, c.length = BLOCK_SIZE) ∧
      (∀ c ∈ chunkData data, c.length ≤ BLOCK_SIZE)) ∧
    (∀ j, j < (chunkData data).length + 2 →
      WriteData s n inode data (some j) = .error .execFailure) := by
  constructor
  · refine ⟨_, writeData_none_eq s n inode data, ?_, ?_, ?_,
      getInodeRow_upsert_self _ _ _, ?_, chunkData_flatten data,
      chunkData_dropLast_full data, chunkData_le data⟩
    · rw [upsertInodeRow_data_blocks]
    · rw [upsertInodeRow_tree]
    · rw [upsertInodeRow_nextInode]
    · intro j hj
      rw [getInodeRow_upsert_ne _ _ _ _ hj]
      rfl
  · intro j hj
    exact writeData_fail s n inode data j hj

/-- C7 witness: the rollback part at a concrete input (the DELETE
statement fails). -/
theorem c7_witness :
    WriteData { tree := [], inodes := [], data_blocks := [], nextInode := 2 }
      (freshNode 0 1) 1 [5] (some 0) = .error .execFailure :=
  (c7_writedata_transaction
    { tree := [], inodes := [], data_blocks := [], nextInode := 2 }
    (freshNode 0 1) 1 [5]).2 0 (by omega)

/-- C8: inserting a fresh object named `name` into a directory where the
name is absent, then resolving `(parent, name)`, returns exactly the
inode that the insert allocated (`s.nextInode`, the next value of the
store's sequence). -/
theorem c8_insert_resolve (s : DB) (now parent : Nat) (name : String)
    (n0 : FileNode)
    (h : s.tree.any (treeMatch parent name) = false) :
    ∃ s' nd, UpsertNode s now parent name n0 = .ok (s', s.nextInode) ∧
      GetNodeByName s' parent name = .ok (s.nextInode, nd) := by
  have hnone : s.tree.find? (treeMatch parent name) = none :=
    List.find?_eq_none.mpr (List.any_eq_false.mp h)
  refine ⟨upsertInodeRow
      { s with tree := s.tree ++ [(⟨s.nextInode, parent, name⟩ : TreeRow)],
               nextInode := s.nextInode + 1 }
      s.nextInode { n0 with mtime := now, ctime := now },
    { n0 with mtime := now, ctime := now }, ?_, ?_⟩
  · simp [UpsertNode, h]
  · have hfind : findTreeRow (upsertInodeRow
        { s with tree := s.tree ++ [(⟨s.nextInode, parent, name⟩ : TreeRow)],
                 nextInode := s.nextInode + 1 }
        s.nextInode { n0 with mtime := now, ctime := now }) parent name =
        some (⟨s.nextInode, parent, name⟩ : TreeRow) := by
      rw [findTreeRow, upsertInodeRow_tree]
      show (s.tree ++ [(⟨s.nextInode, parent, name⟩ : TreeRow)]).find?
        (treeMatch parent name) = _
      rw [List.find?_append, hnone]
      simp [treeMatch]
    simp only [GetNodeByName, hfind, GetNodeByID, getInodeRow_upsert_self]

/-- C8 witness state: an empty store. -/
def c8State : DB := { tree := [], inodes := [], data_blocks := [], nextInode := 2 }

/-- C8 witness: the theorem at a concrete input. -/
theorem c8_witness :
    ∃ s' nd, UpsertNode c8State 9 1 "n" (freshNode 0 1) = .ok (s', c8State.nextInode) ∧
      GetNodeByName s' 1 "n" = .ok (c8State.nextInode, nd) :=
  c8_insert_resolve c8State 9 1 "n" (freshNode 0 1) rfl

/-- C9 counterexample state: a one-block, 5-byte file at inode 2 whose
recorded size matches its blocks. -/
def c9CtxState : DB :=
  { tree := [⟨2, 1, "f"⟩], inodes := [(2, { freshNode 0 1 with size := 5 })],
    data_blocks := [(2, 1, [1, 2, 3, 4, 5])], nextInode := 3 }

/-- C9 counterexample: the block/size invariant holds before, but a
`Setattr` that changes the size field to 3 leaves the data blocks
untouched and breaks it — so the invariant is NOT preserved by every
operation. -/
theorem c9_counterexample :
    blockInv c9CtxState 2 ∧
    ¬ blockInv (Setattr c9CtxState 2 { freshNode 0 1 with size := 5 }
        none none none (some 3) none none none).1 2 := by
  constructor
  · show (ReadData c9CtxState 2).length = 5
    rfl
  · intro h
    have h5 : (5 : Nat) = 3 := h
    omega

/-- C9 (amended): the invariant "concatenation of the data blocks in
sequence order has exactly the node's recorded size" is established by a
whole-file write for the written inode and preserved for every other
inode; `Setattr` size changes are excluded, as the counterexample shows
they need not preserve it. -/
theorem c9_write_preserves_blockInv (s : DB) (n : FileNode) (inode : Nat)
    (data : List Byte) (s' : DB)
    (heq : WriteData s n inode data none = .ok s') :
    blockInv s' inode ∧ ∀ j, j ≠ inode → blockInv s j → blockInv s' j := by
  rw [writeData_none_eq] at heq
  injection heq with heq'
  subst heq'
  constructor
  · unfold blockInv
    rw [getInodeRow_upsert_self, readData_after_write]
  · intro j hj hinv
    unfold blockInv at hinv ⊢
    rw [getInodeRow_upsert_ne _ _ _ _ hj, readData_after_write_ne _ _ _ _ _ hj]
    exact hinv

/-- C9 witness pre-state: inode 3 holds a one-byte file. -/
def c9WitPre : DB :=
  { tree := [⟨3, 1, "g"⟩], inodes := [(3, { freshNode 0 1 with size := 1 })],
    data_blocks := [(3, 1, [9])], nextInode := 4 }

/-- C9 witness post-state: after writing [5] to inode 2. -/
def c9WitPost : DB :=
  { tree := [⟨3, 1, "g"⟩],
    inodes := [(3, { freshNode 0 1 with size := 1 }),
               (2, { freshNode 0 1 with size := 1 })],
    data_blocks := [(3, 1, [9]), (2, 1, [5])], nextInode := 4 }

theorem c9WitEq : WriteData c9WitPre (freshNode 0 1) 2 [5] none = .ok c9WitPost := by
  rw [writeData_none_eq]
  have h5 : chunkData [5] = [[5]] := by
    rw [chunkData, dif_neg (by simp), dif_neg (by simp [BLOCK_SIZE])]
  rw [h5]
  rfl

/-- C9 witness: the amended theorem at a concrete input. -/
theorem c9_witness : blockInv c9WitPost 2 ∧ blockInv c9WitPost 3 := by
  have h := c9_write_preserves_blockInv c9WitPre (freshNode 0 1) 2 [5] c9WitPost c9WitEq
  refine ⟨h.1, h.2 3 (by omega) ?_⟩
  show (ReadData c9WitPre 3).length = 1
  rfl

/-- C10 counterexample state: entries (1,"a") and (1,"b") both exist. -/
def c10State : DB :=
  { tree := [⟨2, 1, "a"⟩, ⟨3, 1, "b"⟩], inodes := [], data_blocks := [],
    nextInode := 4 }

/-- C10 counterexample: when the source entry exists but the destination
(parent, name) is already occupied by another entry, the UPDATE violates
the uniqueness constraint and rename FAILS, instead of succeeding and
modifying the row as the claim states for every input. -/
theorem c10_counterexample :
    Rename c10State 1 "a" 1 "b" = .error .ioError := rfl

/-- C10 (amended): rename succeeds with the state unchanged when no
(oldParent, oldName) entry exists; when it exists and no OTHER entry
occupies (newParent, newName), rename rewrites only the matched tree
row's parent and name columns, leaving inode rows and data blocks
untouched; when another entry already occupies the destination, the
update violates the (parent, name) uniqueness constraint and rename
fails with the generic I/O error, changing nothing. -/
theorem c10_rename_amended (oldParent newParent : Nat) (oldName newName : String) :
    (∀ s : DB, s.tree.any (treeMatch oldParent oldName) = false →
      Rename s oldParent oldName newParent newName = .ok s) ∧
    (∀ s : DB, s.tree.any (treeMatch oldParent oldName) = true →
      s.tree.any (fun r => !(treeMatch oldParent oldName r)
        && treeMatch newParent newName r) = false →
      Rename s oldParent oldName newParent newName =
        .ok { s with tree := s.tree.map (fun r =>
          if treeMatch oldParent oldName r then
            { r with parent := newParent, name := newName } else r) }) ∧
    (∀ s : DB, s.tree.any (treeMatch oldParent oldName) = true →
      s.tree.any (fun r => !(treeMatch oldParent oldName r)
        && treeMatch newParent newName r) = true →
      Rename s oldParent oldName newParent newName = .error .ioError) := by
  refine ⟨?_, ?_, ?_⟩
  · intro s hs
    have hmap : s.tree.map (fun r =>
        if treeMatch oldParent oldName r then
          { r with parent := newParent, name := newName } else r) = s.tree := by
      apply map_id_of_fix
      intro r hr
      exact if_neg (List.any_eq_false.mp hs r hr)
    simp [Rename, RenameNode, hs, hmap]
  · intro s h1 h2
    simp [Rename, RenameNode, h1, h2]
  · intro s h1 h2
    simp [Rename, RenameNode, h1, h2]

/-- C10 witness state: a single entry (1,"a"). -/
def c10WitState : DB :=
  { tree := [⟨2, 1, "a"⟩], inodes := [], data_blocks := [], nextInode := 3 }

/-- C10 witness: the amended theorem's existing-entry part at a concrete
input. -/
theorem c10_witness :
    Rename c10WitState 1 "a" 1 "c" =
      .ok { c10WitState with tree := c10WitState.tree.map (fun r =>
        if treeMatch 1 "a" r then { r with parent := 1, name := "c" } else r) } :=
  (c10_rename_amended 1 1 "a" "c").2.1 c10WitState rfl rfl

end SqlFs
